import Mathlib

/-!
# Verification of the NIST-SRE data-curation pipeline (`examples/nist_sre/helpers.py`)

Shallow embedding of the dataset-validation, utterance-filtering and
train/validation-splitting core of the repository, together with proofs of the
specification's claims about it.

Conventions of the embedding:
* numpy float arrays become `List (List ℚ)` (one inner list per time frame);
  arithmetic is exact rational arithmetic, so the `overflow` flag of the
  utterance filter (raised only on IEEE-754 overflow warnings) can never fire
  and is modelled as `false`;
* Python dicts become association lists `List (key × value)` in insertion
  order (Python dicts preserve insertion order, keys are distinct);
* Python exceptions / assertions become `Except String`;
* the on-disk filesystem is a parameter `fexists : String → Bool`;
* `numpy.random.RandomState` is an external collaborator: it is modelled as a
  value of a `RandomBits` structure of deterministic state-passing functions,
  created from the integer seed alone (mirroring `RandomState(seed=...)`).
-/

namespace SreHelpers

/- Constants of `class Config` in `helpers.py` (the ones the pipeline uses). -/
namespace Config

/-- `STEP_LENGTH = 0.01` (seconds per feature frame step). -/
def STEP_LENGTH : ℚ := 1 / 100

/-- `SUPER_SEED = 52181208`. -/
def SUPER_SEED : Nat := 52181208

/-- `MINIMUM_UTT_DURATION = 1.` (seconds). -/
def MINIMUM_UTT_DURATION : ℚ := 1

/-- `MINIMUM_UTT_PER_SPEAKERS = 8`. -/
def MINIMUM_UTT_PER_SPEAKERS : Nat := 8

end Config

/-! ## Utterance quality filter (`filter_utterances`, helpers.py lines 501-609) -/

/-- Mean of one vector, `np.mean` over a list of rationals. -/
def rowMean (z : List ℚ) : ℚ := z.sum / z.length

/-- Population variance of one vector, `np.var`: `E[z^2] - (E[z])^2`
(exact rational arithmetic). -/
def rowVar (z : List ℚ) : ℚ := (z.map (fun x => x ^ 2)).sum / z.length - (rowMean z) ^ 2

/-- `X[start:end]` on a frames-by-features matrix (numpy slice semantics for
non-negative bounds: clamped, empty when `e ≤ s`). -/
def sliceX (X : List (List ℚ)) (s e : Nat) : List (List ℚ) :=
  (X.drop s).take (e - s)

/-- `minimum_amount_of_frames = Config.MINIMUM_UTT_DURATION / Config.STEP_LENGTH`
(evaluates to 100, as the float computation in the source does). -/
def minimumAmountOfFrames : ℚ := Config.MINIMUM_UTT_DURATION / Config.STEP_LENGTH

/-- The five per-utterance degeneracy flags produced by `_mpi_func`. -/
structure UttFlags where
  zeroLen : Bool
  minFrames : Bool
  zeroVar : Bool
  smallVar : Bool
  overflow : Bool
deriving Repr, DecidableEq

/-- Per-utterance check of `_mpi_func` (helpers.py lines 528-568) on the slice
`y = X[start:end]`:
* `y.shape[0] == 0`                              → zero-length;
* `y.shape[0] <= minimum_amount_of_frames`       → below minimum duration;
* otherwise `var = np.var(y, axis=-1)` is the per-frame variance across the
  feature dimensions (axis `-1` is the feature axis);
  `np.any(np.isclose(var, 0))` (absolute tolerance `1e-8`) → zero-variance;
  `np.sum(var < 0.01) > (len(y) / 6)` (with `len(y)` the number of frames,
  true division) → small-variance.
The overflow flag is unreachable in exact rational arithmetic. -/
def checkUtterance (X : List (List ℚ)) (s e : Nat) : UttFlags :=
  let y := sliceX X s e
  if y.length = 0 then
    ⟨true, false, false, false, false⟩
  else if (y.length : ℚ) ≤ minimumAmountOfFrames then
    ⟨false, true, false, false, false⟩
  else
    let var := y.map rowVar
    let isZeroVar := var.any (fun v => decide (|v| ≤ 1 / 100000000))
    let isSmallVar := decide (((var.filter (fun v => decide (v < 1 / 100))).length : ℚ)
                               > (y.length : ℚ) / 6)
    ⟨false, false, isZeroVar, isSmallVar, false⟩

/-- An utterance is removed when any of the five flags is set
(helpers.py lines 599-605). -/
def isBroken (X : List (List ℚ)) (s e : Nat) : Bool :=
  let f := checkUtterance X s e
  f.zeroLen || f.minFrames || f.zeroVar || f.smallVar || f.overflow

/-- `filter_utterances(X, indices)`: keep exactly the index entries carrying
none of the flags. The index is an association list `name ↦ (start, end)`. -/
def filter_utterances (X : List (List ℚ)) (indices : List (String × Nat × Nat)) :
    List (String × Nat × Nat) :=
  indices.filter (fun e => ! isBroken X e.2.1 e.2.2)

/-- Modelled from the spec, for comparison with `checkUtterance`: the claim's
low-variance-majority rule reads the variances per **feature dimension**
"computed over the time axis", i.e. the variances of the columns of the
slice, and asks whether strictly more than 1/6 of the feature dimensions are
below the 0.01 threshold. -/
def smallVarSpecDims (y : List (List ℚ)) : Bool :=
  let colVars := y.transpose.map rowVar
  decide (((colVars.filter (fun v => decide (v < 1 / 100))).length : ℚ)
           > (y.transpose.length : ℚ) / 6)

/-! ## Feeder recipe assembly (`prepare_dnn_feeder_recipe`, helpers.py lines 482-499) -/

/-- The three recipe constructors used by `prepare_dnn_feeder_recipe`, with
the arguments the source passes (`end='pad'`, `pad_value=0`,
`pad_mode='post'`, `data_idx`/`ref_idx`). `endMode` stands for the Python
keyword `end`. -/
inductive Recipe where
  | Sequencing (frame_length step_length : ℚ) (endMode : String)
      (pad_value : ℚ) (pad_mode : String) (data_idx : Nat)
  | Name2Label (f : String → Nat) (ref_idx : Nat)
  | LabelOneHot (nb_classes : Nat) (data_idx : Nat)

/-- `prepare_dnn_feeder_recipe(name2label, n_speakers)`: always a sequencing
recipe; label recipes exactly when both optional arguments are given; a
`RuntimeError` when exactly one of them is. `utt` is `float(_args.utt)`. -/
def prepare_dnn_feeder_recipe (utt : ℚ) (name2label : Option (String → Nat))
    (n_speakers : Option Nat) : Except String (List Recipe) :=
  let frame_length := utt / Config.STEP_LENGTH
  let recipes := [Recipe.Sequencing frame_length frame_length "pad" 0 "post" 0]
  match name2label, n_speakers with
  | some f, some n =>
      .ok (recipes ++ [Recipe.Name2Label f 0, Recipe.LabelOneHot n 1])
  | none, none => .ok recipes
  | _, _ => .error "name2label and n_speakers must both be None, or not-None"

/-! ## Sorting

Python's `sorted` is a stable sort; strings compare lexicographically by code
point. The embedding uses a stable insertion sort with an executable
comparison. -/

/-- Lexicographic code-point comparison of character lists. -/
def strLeB : List Char → List Char → Bool
  | [], _ => true
  | _ :: _, [] => false
  | a :: as, b :: bs =>
    if a.val < b.val then true
    else if b.val < a.val then false
    else strLeB as bs

/-- Python string `<=`: lexicographic on code points. -/
def strLe (a b : String) : Bool := strLeB a.data b.data

/-- Stable ordered insertion. -/
def insertSorted {α : Type} (le : α → α → Bool) (a : α) : List α → List α
  | [] => [a]
  | b :: l => if le a b then a :: b :: l else b :: insertSorted le a l

/-- Stable insertion sort, the model of Python's `sorted`. -/
def sortBy {α : Type} (le : α → α → Bool) : List α → List α
  | [] => []
  | a :: l => insertSorted le a (sortBy le l)

/-! ## Dataset validator (`validating_training_data`, helpers.py lines 329-399) -/

/-- Does the path start with the POSIX separator? -/
def startsWithSlash (s : String) : Bool :=
  match s.data with
  | [] => false
  | c :: _ => c == '/'

/-- Does the path end with the POSIX separator? -/
def endsWithSlash (s : String) : Bool :=
  match s.data.getLast? with
  | some c => c == '/'
  | none => false

/-- `os.path.join(base, p)` for the POSIX paths the source works with. -/
def joinPath (base p : String) : String :=
  if startsWithSlash p then p
  else if base = "" then p
  else if endsWithSlash base then base ++ p
  else base ++ "/" ++ p

/-- The last component of a POSIX path: the characters after its last
separator. -/
def basenameChars (l : List Char) : List Char :=
  (l.reverse.takeWhile (fun c => c != '/')).reverse

/-- The extension component of `os.path.splitext(p)`: the suffix of the last
path component starting at its last dot, where leading dots of the component
never start an extension. -/
def extOf (p : String) : String :=
  let base := basenameChars p.data
  let stripped := base.dropWhile (fun c => c == '.')
  if stripped.any (fun c => c == '.') then
    String.mk ('.' :: (stripped.reverse.takeWhile (fun c => c != '.')).reverse)
  else String.mk []

/-- `extension_count[key] += 1` on an association list
(`defaultdict(int)` in insertion order). -/
def bumpExt : List (String × Nat) → String → List (String × Nat)
  | [], k => [(k, 1)]
  | (k0, v) :: rest, k =>
      if k0 = k then (k0, v + 1) :: rest else (k0, v) :: bumpExt rest k

/-- `{ds: sre_file_list[ds] for ds in training_dataset if ds in sre_file_list}`
(helpers.py lines 331-333): datasets absent from the file list are silently
dropped. Training dataset names are distinct, as in the source's constant
`TRAINING_DATASET` list. -/
def fileListOf (sfl : List (String × List (List String))) (td : List String) :
    List (String × List (List String)) :=
  td.filterMap (fun ds => (sfl.lookup ds).map (fun rows => (ds, rows)))

/-- One manifest row made into the validator's 7-column row
`[path, channel, name, dataset_spkid, dataset, start_time, end_time]`
(helpers.py lines 353-365). The raw-data root is joined onto the path only
when the dataset has one configured; otherwise the manifest-relative path is
used as is. Only `mx6` rows carry time bounds (their last two columns). -/
def processRow (raw : List (String × String)) (ds : String) (row : List String) :
    List String :=
  let path := row.getD 0 ""
  let channel := row.getD 1 ""
  let name := row.getD 2 ""
  let spkid := row.getD 3 ""
  let path1 := match raw.lookup ds with
    | some base => joinPath base path
    | none => path
  let startTime := if ds = "mx6" then row.getD (row.length - 2) "" else "-"
  let endTime := if ds = "mx6" then row.getD (row.length - 1) "" else "-"
  [path1, channel, name, ds ++ "_" ++ spkid, ds, startTime, endTime]

/-- Accumulator of the validator's row loop:
`(all_files, non_exist_files, extension_count)`. -/
abbrev VAcc := List (List String) × List (List String) × List (String × Nat)

/-- Row loop body (helpers.py lines 352-378): assert the channel is `'0'` or
`'1'`, build the new row, file it under existing or non-existing according to
the filesystem, and count its extension. -/
def validateRow (fexists : String → Bool) (raw : List (String × String))
    (ds : String) (acc : VAcc) (row : List String) : Except String VAcc :=
  let channel := row.getD 1 ""
  if channel = "0" ∨ channel = "1" then
    let nr := processRow raw ds row
    let p := nr.getD 0 ""
    let ec := bumpExt acc.2.2 (extOf p ++ "-" ++ ds)
    if fexists p then .ok (acc.1 ++ [nr], acc.2.1, ec)
    else .ok (acc.1, acc.2.1 ++ [nr], ec)
  else .error "AssertionError: channel not in (0, 1)"

/-- Dataset loop body (helpers.py lines 348-351): the noise corpora `musan`
and `rirs` are skipped, every other dataset has its rows validated in order. -/
def validateDataset (fexists : String → Bool) (raw : List (String × String))
    (acc : VAcc) (dsrows : String × List (List String)) : Except String VAcc :=
  if dsrows.1 = "musan" ∨ dsrows.1 = "rirs" then .ok acc
  else dsrows.2.foldlM (validateRow fexists raw dsrows.1) acc

/-- `validating_training_data(in_path_raw, training_dataset)` (helpers.py
lines 329-399): iterate the known datasets sorted by name, split rows into
existing/non-existing, and afterwards — unless no file exists, in which case
the function returns early — assert that utterance names are globally unique
and that the number of distinct prefixed speaker ids over the **existing**
rows equals the sum of per-corpus distinct raw speaker counts over **all**
manifest rows. Assertion messages follow the source (`'Found duplicated
name/speakers: %d != %d'`). -/
def validating_training_data (fexists : String → Bool)
    (sfl : List (String × List (List String)))
    (raw : List (String × String)) (td : List String) : Except String VAcc := do
  let fl := sortBy (fun a b => strLe a.1 b.1) (fileListOf sfl td)
  let acc ← fl.foldlM (validateDataset fexists raw) ([], [], [])
  let allFiles := acc.1
  if allFiles.length = 0 then pure acc
  else
    let nFiles := allFiles.length
    let nUnique := ((allFiles.map (fun r => r.getD 2 "")).dedup).length
    if nFiles = nUnique then
      let nSpk := (((fileListOf sfl td).filter
          (fun p => !(p.1 = "musan" ∨ p.1 = "rirs" : Bool))).map
          (fun p => ((p.2.map (fun r => r.getD 3 "")).dedup).length)).sum
      let nUniqueSpk := ((allFiles.map (fun r => r.getD 3 "")).dedup).length
      if nSpk = nUniqueSpk then pure acc
      else .error ("Found duplicated speakers: " ++ toString nSpk ++ " != "
                    ++ toString nUniqueSpk)
    else .error ("Found duplicated name: " ++ toString nFiles ++ " != "
                  ++ toString nUnique)

/-- Number of manifest rows the validator processes (the rows of every known,
non-noise training dataset). -/
def countTrainingRows (sfl : List (String × List (List String)))
    (td : List String) : Nat :=
  (((fileListOf sfl td).filter
      (fun p => !(p.1 = "musan" ∨ p.1 = "rirs" : Bool))).map
      (fun p => p.2.length)).sum

/-- The extract-features driver around the validator (helpers.py lines
401-407): it, not the validator, escalates the zero-valid-files aggregate to
a fatal `RuntimeError`. -/
def run_training_validation (fexists : String → Bool)
    (sfl : List (String × List (List String)))
    (raw : List (String × String)) (td : List String) : Except String VAcc := do
  let acc ← validating_training_data fexists sfl raw td
  if acc.1.length = 0 then .error "No files found for feature extraction"
  else pure acc

/-- `validate_scoring_dataset(in_path_raw, score_dataset)` (helpers.py lines
219-239): unknown dataset names are fatal `ValueError`s, and — unlike the
training validator — **every** missing file is an immediate fatal
`RuntimeError`. Existing rows become `[path] + row[1:4] + [dsname]`. -/
def validate_scoring_dataset (fexists : String → Bool)
    (sfl : List (String × List (List String)))
    (raw : List (String × String)) (score_dataset : List String) :
    Except String (List (String × List (List String))) :=
  score_dataset.foldlM (fun acc dsname => do
    if (sfl.lookup dsname).isNone then
      .error ("Cannot find dataset with name: " ++ dsname ++ " in the file list")
    else if (raw.lookup dsname).isNone then
      .error ("Cannot find dataset with name: " ++ dsname ++ " in provided path")
    else
      let rows := (sfl.lookup dsname).getD []
      let base := (raw.lookup dsname).getD ""
      let ds ← rows.foldlM (fun dsacc row => do
        let path := joinPath base (row.getD 0 "")
        if fexists path then
          pure (dsacc ++ [[path, row.getD 1 "", row.getD 2 "", row.getD 3 "", dsname]])
        else .error ("File not exist at path: " ++ path)) ([] : List (List String))
      pure (acc ++ [(dsname, ds)])) []

/-! ## Train/validation splitter (`prepare_dnn_data`, helpers.py lines 611-792) -/

/-- The external `numpy.random.RandomState` collaborator: a deterministic
generator state created from the integer seed alone, with state-passing
`shuffle` (permutes a list) and `choice` (draws `size` names from a list,
with replacement). -/
structure RandomBits (σ : Type) where
  init : Nat → σ
  shuffle : σ → List String → List String × σ
  choice : σ → Nat → List String → List String × σ

/-- Contract of `rand.shuffle`: the shuffled list is a permutation of the
input. -/
def ShuffleSpec {σ : Type} (rng : RandomBits σ) : Prop :=
  ∀ st l, ((rng.shuffle st l).1).Perm l

/-- Contract of `rand.choice(a, size=n)` for nonempty feasible draws: the
result has exactly `n` entries (sampling is with replacement, so entries may
repeat) and every entry comes from `a`. -/
def ChoiceSpec {σ : Type} (rng : RandomBits σ) : Prop :=
  ∀ st n l, 0 < n → n ≤ l.length →
    (rng.choice st n l).1.length = n ∧ ∀ x ∈ (rng.choice st n l).1, x ∈ l

/-- Minimum-utterances-per-speaker filter (helpers.py lines 660-683): an
utterance survives iff its speaker has at least `MINIMUM_UTT_PER_SPEAKERS`
utterances among the quality-filtered index keys; a speaker below the
threshold loses all of its utterances. -/
def keepMinUtt (spk : String → String) (indices : List (String × Nat × Nat)) :
    List (String × Nat × Nat) :=
  indices.filter (fun e =>
    decide (Config.MINIMUM_UTT_PER_SPEAKERS ≤
      (indices.filter (fun e2 => decide (spk e2.1 = spk e.1))).length))

/-- `all_name = sorted(indices.keys())` followed by the two seeded shuffles
(helpers.py lines 686-687); returns the shuffled names and the advanced
generator state. -/
def allNameOf {σ : Type} (rng : RandomBits σ) (st0 : σ)
    (indices : List (String × Nat × Nat)) : List String × σ :=
  let sorted0 := sortBy strLe (indices.map Prod.fst)
  let sh1 := rng.shuffle st0 sorted0
  rng.shuffle sh1.2 sh1.1

/-- `all_speakers = sorted(set(name2spk.values()))` (helpers.py line 693). -/
def speakersOf (spk : String → String) (all_name : List String) : List String :=
  sortBy strLe ((all_name.map spk).dedup)

/-- The dense label of a name: the position of its speaker in the sorted
speaker vocabulary (helpers.py lines 694-697). -/
def labelOf (spk : String → String) (all_name : List String) (n : String) : Nat :=
  (speakersOf spk all_name).indexOf (spk n)

/-- First-occurrence deduplication, the order in which a Python
`defaultdict` built by insertion enumerates its keys. -/
def dedupKeepFirst : List Nat → List Nat
  | [] => []
  | a :: rest => a :: (dedupKeepFirst rest).filter (fun b => decide (b ≠ a))

/-- `label2name` (helpers.py lines 703-705): the speakers' clusters, keyed by
dense label in first-appearance order; each cluster lists the names with that
label in `all_name` order. -/
def groupsOf (spk : String → String) (all_name : List String) :
    List (Nat × List String) :=
  (dedupKeepFirst (all_name.map (labelOf spk all_name))).map
    (fun l => (l, all_name.filter (fun n => decide (labelOf spk all_name n = l))))

/-- The stratified validation draw (helpers.py lines 707-711): clusters with
fewer than 3 names are skipped; otherwise `n = max(1, int(0.1 * count))`
names are drawn from the cluster — `int` truncates, which on these magnitudes
is natural division by 10 — and appended to `valid_name`. -/
def drawValid {σ : Type} (rng : RandomBits σ) :
    σ → List (Nat × List String) → List String × σ
  | st, [] => ([], st)
  | st, (_, nl) :: rest =>
    if nl.length < 3 then drawValid rng st rest
    else
      let n := max 1 (nl.length / 10)
      let pk := rng.choice st n nl
      let restPicked := drawValid rng pk.2 rest
      (pk.1 ++ restPicked.1, restPicked.2)

/-- The splitting stage of `prepare_dnn_data` (helpers.py lines 684-720) on
the kept utterance index: shuffle the sorted names, draw the stratified
validation names per speaker cluster, and let `train_name` be every name not
drawn. Returns `(train_name, valid_name, all_speakers)`. -/
def prepare_split {σ : Type} (rng : RandomBits σ) (st0 : σ)
    (spk : String → String) (indices : List (String × Nat × Nat)) :
    List String × List String × List String :=
  let an := allNameOf rng st0 indices
  let dv := drawValid rng an.2 (groupsOf spk an.1)
  (an.1.filter (fun n => decide (¬ n ∈ dv.1)), dv.1, speakersOf spk an.1)

/-- `prepare_dnn_data` seeds one `numpy.random.RandomState` with
`Config.SUPER_SEED` (helpers.py line 619) and derives every random draw of
the split — the shuffles and the per-speaker choices — from it. -/
def prepare_dnn_split {σ : Type} (rng : RandomBits σ) (seed : Nat)
    (spk : String → String) (indices : List (String × Nat × Nat)) :
    List String × List String × List String :=
  prepare_split rng (rng.init seed) spk indices

/-- Modelled from the spec: the claimed per-speaker validation draw size
`max(1, round(0.1 * count))`. (`round` here rounds halves up while Python
rounds halves to even, but the comparisons below stay away from half-integer
boundaries.) -/
def validDrawCountSpec (c : Nat) : ℤ := max 1 (round ((c : ℚ) / 10))

/-- A concrete deterministic generator for witnesses: identity shuffle, and
drawing the first `n` names. It satisfies the shuffle and choice contracts
the splitter theorems assume. -/
def rngTake : RandomBits Nat where
  init := fun seed => seed
  shuffle := fun st l => (l, st + 1)
  choice := fun st n l => (l.take n, st + 1)

/-- Concrete 808-frame, 3-dimension feature matrix for witnesses: frame `i`
is `[0, i+1, 2(i+1)]`, whose variance across the three features is
`2(i+1)^2/3 ≥ 2/3`, so no frame is (near-)zero- or low-variance. -/
def Xw : List (List ℚ) :=
  (List.range 808).map (fun i => [0, (i : ℚ) + 1, 2 * ((i : ℚ) + 1)])

/-- Eight 101-frame utterances of one speaker over `Xw`: they all pass the
quality filter and the 8-utterances-per-speaker minimum. -/
def idxW : List (String × Nat × Nat) :=
  (List.range 8).map (fun k => ("u" ++ toString k, 101 * k, 101 * (k + 1)))

/-- Sixteen surviving utterances of one speaker (the index bounds are unused
by the splitting stage). -/
def idxC2 : List (String × Nat × Nat) :=
  (List.range 16).map (fun k => ("u" ++ toString k, 0, 101))

/-- Concrete 101-frame, 6-dimension feature matrix: frames alternate between
`[0,0,10,20,30,40]` and `[0,0,12,24,36,48]`, so exactly the first two feature
dimensions have variance `< 0.01` over the time axis (both are constant),
while every frame has a large variance across its six feature values. -/
def Xc1 : List (List ℚ) :=
  (List.range 101).map (fun i =>
    if i % 2 = 0 then [0, 0, 10, 20, 30, 40] else [0, 0, 12, 24, 36, 48])

end SreHelpers

namespace SreHelpers

set_option maxRecDepth 40000

unseal Rat.add Rat.mul Rat.inv Rat.sub

/-! ## First theorems: C6 and C8 -/

theorem isBroken_self_start (X : List (List ℚ)) (s : Nat) : isBroken X s s = true := by
  simp [isBroken, checkUtterance, sliceX]

/-- C8: For every utterance whose index entry satisfies `end == start`, the
quality filter removes it under the zero-length rule, regardless of the content
of the feature matrix. -/
theorem zero_length_always_removed (X : List (List ℚ))
    (indices : List (String × Nat × Nat)) (name : String) (s : Nat) :
    (name, s, s) ∉ filter_utterances X indices := by
  intro hmem
  have h := List.of_mem_filter hmem
  simp only [isBroken_self_start] at h
  exact Bool.false_ne_true (by simp at h)

/-- C6: For every feature matrix `X` and every utterance index, the quality
filter is idempotent: `filter(X, filter(X, idx)) == filter(X, idx)`. -/
theorem filter_utterances_idempotent (X : List (List ℚ))
    (indices : List (String × Nat × Nat)) :
    filter_utterances X (filter_utterances X indices) = filter_utterances X indices := by
  simp [filter_utterances, List.filter_filter]

/-! ## C1: the low-variance-majority rule -/

/-- On a slice longer than the 100-frame minimum, `checkUtterance` reaches the
statistics branch, so only the zero-variance and small-variance flags can be
set, and the small-variance flag counts low-variance **frames**. -/
theorem checkUtterance_of_long (X : List (List ℚ)) (s e : Nat)
    (h : 100 < (sliceX X s e).length) :
    checkUtterance X s e =
      ⟨false, false,
       ((sliceX X s e).map rowVar).any (fun v => decide (|v| ≤ 1 / 100000000)),
       decide (((((sliceX X s e).map rowVar).filter
                   (fun v => decide (v < 1 / 100))).length : ℚ)
                > ((sliceX X s e).length : ℚ) / 6),
       false⟩ := by
  have h0 : ¬ (sliceX X s e).length = 0 := by omega
  have h100 : ¬ ((sliceX X s e).length : ℚ) ≤ minimumAmountOfFrames := by
    have : (100 : ℚ) < (sliceX X s e).length := by exact_mod_cast h
    have hm : minimumAmountOfFrames = 100 := by
      norm_num [minimumAmountOfFrames, Config.MINIMUM_UTT_DURATION, Config.STEP_LENGTH]
    rw [hm]
    exact not_le.mpr this
  rw [checkUtterance]
  simp only [h0, if_false, h100]

/-- `filter_utterances` on a one-entry index returns the empty index exactly
when the entry is flagged. -/
theorem filter_singleton_empty_iff (X : List (List ℚ)) (name : String) (s e : Nat) :
    filter_utterances X [(name, s, e)] = [] ↔ isBroken X s e = true := by
  cases hb : isBroken X s e <;> simp [filter_utterances, List.filter_cons, hb]

/-- C1 (amended): for every utterance that passes the zero-length and
minimum-duration checks and carries no zero-variance flag, the quality filter
removes it under the low-variance-majority rule exactly when strictly more
than 1/6 of its **time frames** have variance, computed across the feature
dimensions, below the fixed threshold 0.01. -/
theorem low_variance_majority_counts_frames
    (X : List (List ℚ)) (name : String) (s e : Nat)
    (h1 : 100 < (sliceX X s e).length)
    (h2 : (checkUtterance X s e).zeroVar = false) :
    filter_utterances X [(name, s, e)] = [] ↔
      ((((sliceX X s e).map rowVar).filter
          (fun v => decide (v < 1 / 100))).length : ℚ)
        > ((sliceX X s e).length : ℚ) / 6 := by
  have hc := checkUtterance_of_long X s e h1
  rw [hc] at h2
  have h2' : ((sliceX X s e).map rowVar).any
      (fun v => decide (|v| ≤ 1 / 100000000)) = false := h2
  rw [filter_singleton_empty_iff]
  simp only [isBroken, hc, h2', Bool.or_false, Bool.false_or]
  exact decide_eq_true_iff

/-- Witness for `low_variance_majority_counts_frames` at the concrete matrix
`Xc1` and slice `[0, 101)`. -/
theorem low_variance_majority_counts_frames_witness :
    100 < (sliceX Xc1 0 101).length ∧
    (checkUtterance Xc1 0 101).zeroVar = false ∧
    (filter_utterances Xc1 [("utt-c1", 0, 101)] = [] ↔
      ((((sliceX Xc1 0 101).map rowVar).filter
          (fun v => decide (v < 1 / 100))).length : ℚ)
        > ((sliceX Xc1 0 101).length : ℚ) / 6) :=
  ⟨by decide, by decide,
   low_variance_majority_counts_frames Xc1 "utt-c1" 0 101 (by decide) (by decide)⟩

/-- Counterexample to C1 as stated: the utterance `("utt-c1", 0, 101)` over
`Xc1` passes the zero-length and minimum-duration checks, has exactly 2 of its
6 feature dimensions with variance (over the time axis) below 0.01 — strictly
more than 1/6 of the dimensions, so the claim says it is removed — yet the
code does not flag it (its per-frame variances are all large) and the filter
keeps it. -/
theorem low_variance_majority_dims_counterexample :
    100 < (sliceX Xc1 0 101).length ∧
    (sliceX Xc1 0 101).transpose.length = 6 ∧
    (((sliceX Xc1 0 101).transpose.map rowVar).filter
        (fun v => decide (v < 1 / 100))).length = 2 ∧
    smallVarSpecDims (sliceX Xc1 0 101) = true ∧
    (checkUtterance Xc1 0 101).smallVar = false ∧
    filter_utterances Xc1 [("utt-c1", 0, 101)] = [("utt-c1", 0, 101)] := by
  decide

/-! ## Sorting is a permutation -/

theorem perm_insertSorted {α : Type} (le : α → α → Bool) (a : α) (l : List α) :
    (insertSorted le a l).Perm (a :: l) := by
  induction l with
  | nil => exact List.Perm.refl _
  | cons b t ih =>
    rw [insertSorted]
    cases le a b with
    | true => simp
    | false =>
      simp only [if_neg Bool.false_ne_true]
      exact (ih.cons b).trans (List.Perm.swap a b t)

theorem perm_sortBy {α : Type} (le : α → α → Bool) (l : List α) :
    (sortBy le l).Perm l := by
  induction l with
  | nil => exact List.Perm.refl _
  | cons a t ih =>
    rw [sortBy]
    exact (perm_insertSorted le a (sortBy le t)).trans (ih.cons a)

/-! ## C10: `prepare_dnn_feeder_recipe` -/

/-- C10: if exactly one of `name2label` and `n_speakers` is `None` the call
raises `RuntimeError`; if both are `None` it returns only the sequencing
recipe; if both are given it returns the sequencing recipe followed by the
name-to-label and one-hot recipes. -/
theorem feeder_recipe_cases (utt : ℚ) (f : String → Nat) (n : Nat) :
    prepare_dnn_feeder_recipe utt none none =
      .ok [Recipe.Sequencing (utt / Config.STEP_LENGTH) (utt / Config.STEP_LENGTH)
             "pad" 0 "post" 0] ∧
    prepare_dnn_feeder_recipe utt (some f) (some n) =
      .ok [Recipe.Sequencing (utt / Config.STEP_LENGTH) (utt / Config.STEP_LENGTH)
             "pad" 0 "post" 0,
           Recipe.Name2Label f 0, Recipe.LabelOneHot n 1] ∧
    prepare_dnn_feeder_recipe utt (some f) none =
      .error "name2label and n_speakers must both be None, or not-None" ∧
    prepare_dnn_feeder_recipe utt none (some n) =
      .error "name2label and n_speakers must both be None, or not-None" :=
  ⟨rfl, rfl, rfl, rfl⟩

/-! ## C3: unknown datasets and missing raw-data roots -/

/-- Dropping the unknown dataset names from `training_dataset` leaves
`fileListOf` unchanged: unknown names are silently skipped. -/
theorem fileListOf_filter_known (sfl : List (String × List (List String)))
    (td : List String) :
    fileListOf sfl (td.filter (fun ds => (sfl.lookup ds).isSome)) =
      fileListOf sfl td := by
  simp only [fileListOf]
  induction td with
  | nil => rfl
  | cons ds t ih =>
    rw [List.filter_cons]
    cases h : sfl.lookup ds with
    | none => simp [List.filterMap_cons, h, ih]
    | some rows => simp [List.filterMap_cons, h, ih]

/-- C3 (amended): a manifest row whose dataset name is unknown is silently
skipped (the training validator behaves as if the unknown names were never
listed), and a row whose dataset has no configured raw-data root is processed
with its manifest-relative path unresolved; neither condition is a fatal
error of the training validator. -/
theorem unknown_dataset_skipped_and_rootless_path_unresolved
    (fexists : String → Bool) (sfl : List (String × List (List String)))
    (raw : List (String × String)) (td : List String)
    (ds : String) (row : List String) (hroot : raw.lookup ds = none) :
    validating_training_data fexists sfl raw
        (td.filter (fun dsn => (sfl.lookup dsn).isSome)) =
      validating_training_data fexists sfl raw td ∧
    (processRow raw ds row).getD 0 "" = row.getD 0 "" := by
  constructor
  · rw [validating_training_data, validating_training_data,
        fileListOf_filter_known]
  · rw [processRow, hroot]
    rfl

/-- Witness for `unknown_dataset_skipped_and_rootless_path_unresolved` at a
concrete manifest, with no raw-data root configured at all. -/
theorem unknown_dataset_skipped_witness :
    validating_training_data (fun _ => true)
        [("foo", [["a.wav", "0", "utt1", "spk1"]])] []
        (["foo", "bar"].filter
          (fun dsn => ([("foo", [["a.wav", "0", "utt1", "spk1"]])].lookup dsn).isSome)) =
      validating_training_data (fun _ => true)
        [("foo", [["a.wav", "0", "utt1", "spk1"]])] [] ["foo", "bar"] ∧
    (processRow [] "foo" ["a.wav", "0", "utt1", "spk1"]).getD 0 "" =
      (["a.wav", "0", "utt1", "spk1"] : List String).getD 0 "" :=
  unknown_dataset_skipped_and_rootless_path_unresolved (fun _ => true)
    [("foo", [["a.wav", "0", "utt1", "spk1"]])] [] ["foo", "bar"]
    "foo" ["a.wav", "0", "utt1", "spk1"] rfl

/-- Counterexample to C3 as stated: a run whose manifest references the
unknown dataset `bar` and whose known dataset `foo` has no configured
raw-data root does **not** abort: the validator returns normally, the `bar`
rows are silently skipped, and the `foo` row is processed with its unresolved
relative path `a.wav`. -/
theorem unknown_dataset_not_fatal_counterexample :
    validating_training_data (fun _ => true)
        [("foo", [["a.wav", "0", "utt1", "spk1"]])] [] ["foo", "bar"] =
      .ok ([["a.wav", "0", "utt1", "foo_spk1", "foo", "-", "-"]], [],
           [(".wav-foo", 1)]) := rfl

/-! ## C4: the duplicate-speaker assertion -/

/-- C4 is a code bug: on a manifest whose two utterance ids `utt1`, `utt2`
are globally unique, with two distinct speakers of which one has its only
file missing on disk, the validator nevertheless aborts with the
duplicate-speaker integrity error (it compares speaker counts of **all**
manifest rows against speaker counts of **existing** rows). -/
theorem duplicated_speakers_assert_fires_on_missing_file :
    (([["a.wav", "0", "utt1", "A"], ["b.wav", "0", "utt2", "B"]].map
        (fun r => (r : List String).getD 2 "")).dedup).length = 2 ∧
    validating_training_data (fun p => p == "/r/a.wav")
        [("sre04", [["a.wav", "0", "utt1", "A"], ["b.wav", "0", "utt2", "B"]])]
        [("sre04", "/r")] ["sre04"] =
      .error "Found duplicated speakers: 2 != 1" := by
  constructor
  · decide
  · rfl

/-! ## C9: propagation policy of the validators -/

/-- Counterexample to C9 as stated: the scoring validator raises a fatal
error on the very first missing file instead of recording it and
continuing. -/
theorem scoring_validator_raises_on_missing_file :
    validate_scoring_dataset (fun _ => false)
        [("sre18dev", [["x.wav", "0", "n1", "t1"]])]
        [("sre18dev", "/r")] ["sre18dev"] =
      .error "File not exist at path: /r/x.wav" := rfl

/-- With no file on disk, the row loop of the training validator never
raises (provided every row passes the channel assertion): every row is
recorded, in order, in the non-existing list. -/
theorem foldRows_all_missing (raw : List (String × String)) (ds : String)
    (rows : List (List String)) :
    ∀ acc : VAcc, (∀ row ∈ rows, row.getD 1 "" = "0" ∨ row.getD 1 "" = "1") →
      ∃ ec, rows.foldlM (validateRow (fun _ => false) raw ds) acc =
        .ok (acc.1, acc.2.1 ++ rows.map (processRow raw ds), ec) := by
  induction rows with
  | nil =>
    intro acc _
    refine ⟨acc.2.2, ?_⟩
    simp only [List.foldlM_nil, List.map_nil, List.append_nil]
    rfl
  | cons row t ih =>
    intro acc h
    have hstep : validateRow (fun _ => false) raw ds acc row =
        .ok (acc.1, acc.2.1 ++ [processRow raw ds row],
             bumpExt acc.2.2
               (extOf ((processRow raw ds row).getD 0 "") ++ "-" ++ ds)) := by
      rw [validateRow, if_pos (h row (List.mem_cons_self _ _))]
      simp
    rw [List.foldlM_cons, hstep]
    obtain ⟨ec, hec⟩ :=
      ih (acc.1, acc.2.1 ++ [processRow raw ds row],
          bumpExt acc.2.2 (extOf ((processRow raw ds row).getD 0 "") ++ "-" ++ ds))
        (fun r hr => h r (List.mem_cons_of_mem _ hr))
    refine ⟨ec, ?_⟩
    show t.foldlM (validateRow (fun _ => false) raw ds) _ = _
    rw [hec]
    simp

/-- With no file on disk, the dataset loop of the training validator never
raises (under the channel hypothesis): it returns the empty existing list and
records every non-noise row in the non-existing list. -/
theorem foldDatasets_all_missing (raw : List (String × String))
    (fl : List (String × List (List String))) :
    ∀ acc : VAcc,
      (∀ p ∈ fl, ∀ row ∈ p.2, row.getD 1 "" = "0" ∨ row.getD 1 "" = "1") →
      ∃ ec, fl.foldlM (validateDataset (fun _ => false) raw) acc =
        .ok (acc.1,
             acc.2.1 ++ (fl.filter
               (fun p => !(p.1 = "musan" ∨ p.1 = "rirs" : Bool))).flatMap
               (fun pr => pr.2.map (processRow raw pr.1)),
             ec) := by
  induction fl with
  | nil =>
    intro acc _
    refine ⟨acc.2.2, ?_⟩
    simp only [List.foldlM_nil, List.filter_nil, List.flatMap_nil, List.append_nil]
    rfl
  | cons p t ih =>
    intro acc h
    rw [List.foldlM_cons]
    by_cases hp : p.1 = "musan" ∨ p.1 = "rirs"
    · have hstep : validateDataset (fun _ => false) raw acc p = .ok acc := by
        rw [validateDataset, if_pos hp]
      rw [hstep]
      obtain ⟨ec, hec⟩ := ih acc (fun q hq => h q (List.mem_cons_of_mem _ hq))
      refine ⟨ec, ?_⟩
      show t.foldlM (validateDataset (fun _ => false) raw) acc = _
      rw [hec]
      have hcond : (!(decide (p.1 = "musan" ∨ p.1 = "rirs"))) = false := by
        simp [hp]
      rw [List.filter_cons, hcond]
      simp
    · have hrows := foldRows_all_missing raw p.1 p.2 acc
        (h p (List.mem_cons_self _ _))
      obtain ⟨ec1, hec1⟩ := hrows
      have hstep : validateDataset (fun _ => false) raw acc p =
          .ok (acc.1, acc.2.1 ++ p.2.map (processRow raw p.1), ec1) := by
        rw [validateDataset, if_neg hp]
        exact hec1
      rw [hstep]
      obtain ⟨ec, hec⟩ :=
        ih (acc.1, acc.2.1 ++ p.2.map (processRow raw p.1), ec1)
          (fun q hq => h q (List.mem_cons_of_mem _ hq))
      refine ⟨ec, ?_⟩
      show t.foldlM (validateDataset (fun _ => false) raw) _ = _
      rw [hec]
      have hcond : (!(decide (p.1 = "musan" ∨ p.1 = "rirs"))) = true := by
        simp [hp]
      rw [List.filter_cons, hcond]
      simp [List.flatMap_cons, List.append_assoc]

/-- C9 (amended): the training-data validator never raises on missing files:
when no manifest file exists on disk (and every row passes the channel
assertion) it still returns normally, with an empty valid list and every
processed row recorded in the rejection list; the zero-valid-files aggregate
is escalated to the fatal error by the caller, not by the validator. -/
theorem validator_records_missing_rows_caller_escalates
    (sfl : List (String × List (List String))) (raw : List (String × String))
    (td : List String)
    (hch : ∀ p ∈ fileListOf sfl td, ∀ row ∈ p.2,
        row.getD 1 "" = "0" ∨ row.getD 1 "" = "1") :
    (∃ ne ec, validating_training_data (fun _ => false) sfl raw td =
        .ok ([], ne, ec) ∧ ne.length = countTrainingRows sfl td) ∧
    run_training_validation (fun _ => false) sfl raw td =
      .error "No files found for feature extraction" := by
  have hperm : (sortBy (fun a b => strLe a.1 b.1) (fileListOf sfl td)).Perm
      (fileListOf sfl td) := perm_sortBy _ _
  have hch2 : ∀ p ∈ sortBy (fun a b => strLe a.1 b.1) (fileListOf sfl td),
      ∀ row ∈ p.2, row.getD 1 "" = "0" ∨ row.getD 1 "" = "1" :=
    fun p hp => hch p (hperm.mem_iff.mp hp)
  obtain ⟨ec, hec⟩ := foldDatasets_all_missing raw
    (sortBy (fun a b => strLe a.1 b.1) (fileListOf sfl td)) ([], [], []) hch2
  set ne := ((sortBy (fun a b => strLe a.1 b.1) (fileListOf sfl td)).filter
      (fun p => !(p.1 = "musan" ∨ p.1 = "rirs" : Bool))).flatMap
      (fun pr => pr.2.map (processRow raw pr.1)) with hne
  have hval : validating_training_data (fun _ => false) sfl raw td =
      .ok ([], ne, ec) := by
    rw [validating_training_data]
    simp only [List.nil_append] at hec
    rw [hec]
    rfl
  have hlen : ne.length = countTrainingRows sfl td := by
    rw [hne, countTrainingRows, List.length_flatMap]
    have hpf : (((sortBy (fun a b => strLe a.1 b.1) (fileListOf sfl td)).filter
        (fun p => !(p.1 = "musan" ∨ p.1 = "rirs" : Bool))).map
        (fun p => p.2.length)).Perm
        (((fileListOf sfl td).filter
          (fun p => !(p.1 = "musan" ∨ p.1 = "rirs" : Bool))).map
          (fun p => p.2.length)) := (hperm.filter _).map _
    rw [← hpf.sum_eq]
    have hfun : (List.length ∘ fun pr : String × List (List String) =>
        List.map (processRow raw pr.1) pr.2) = fun p => p.2.length := by
      funext pr
      simp
    rw [hfun]
  refine ⟨⟨ne, ec, hval, hlen⟩, ?_⟩
  rw [run_training_validation, hval]
  rfl

/-- Witness for `validator_records_missing_rows_caller_escalates` at a
two-row manifest with nothing on disk. -/
theorem validator_records_missing_rows_witness :
    (∃ ne ec, validating_training_data (fun _ => false)
        [("swb", [["c.wav", "0", "n1", "s1"], ["d.wav", "1", "n2", "s2"]])]
        [] ["swb"] = .ok ([], ne, ec) ∧
      ne.length = countTrainingRows
        [("swb", [["c.wav", "0", "n1", "s1"], ["d.wav", "1", "n2", "s2"]])] ["swb"]) ∧
    run_training_validation (fun _ => false)
        [("swb", [["c.wav", "0", "n1", "s1"], ["d.wav", "1", "n2", "s2"]])]
        [] ["swb"] =
      .error "No files found for feature extraction" :=
  validator_records_missing_rows_caller_escalates
    [("swb", [["c.wav", "0", "n1", "s1"], ["d.wav", "1", "n2", "s2"]])]
    [] ["swb"] (by decide)

/-! ## C7: determinism of the split -/

/-- C7: for every fixed seed and generator implementation, two runs of the
train/validation splitter on identical inputs produce identical `train` and
`valid` sets — every random draw is derived from the single seeded
generator state, and the split is a pure function of seed and inputs. -/
theorem split_deterministic {σ : Type} (rng : RandomBits σ) (seed : Nat)
    (spk1 spk2 : String → String) (idx1 idx2 : List (String × Nat × Nat))
    (hspk : spk1 = spk2) (hidx : idx1 = idx2) :
    prepare_dnn_split rng seed spk1 idx1 = prepare_dnn_split rng seed spk2 idx2 := by
  rw [hspk, hidx]

/-! ## Splitter machinery: properties of the stratified draw -/

theorem rngTake_shuffleSpec : ShuffleSpec rngTake := fun _ l => List.Perm.refl l

theorem rngTake_choiceSpec : ChoiceSpec rngTake := by
  intro st n l hpos hle
  constructor
  · show (l.take n).length = n
    rw [List.length_take]
    omega
  · intro x hx
    exact List.take_subset n l hx

/-- Bounds on the draw size `max 1 (len / 10)` for clusters of at least 3. -/
theorem drawCount_bounds (len : Nat) (h : 3 ≤ len) :
    0 < max 1 (len / 10) ∧ max 1 (len / 10) ≤ len ∧ max 1 (len / 10) < len := by
  have hdiv : len / 10 < len := Nat.div_lt_self (by omega) (by omega)
  have hdiv2 : len / 10 ≤ len := Nat.div_le_self len 10
  omega

theorem dedupKeepFirst_nodup (l : List Nat) : (dedupKeepFirst l).Nodup := by
  induction l with
  | nil => exact List.nodup_nil
  | cons a t ih =>
    rw [dedupKeepFirst]
    refine List.Nodup.cons ?_ (ih.filter _)
    intro ha
    have := List.of_mem_filter ha
    simp at this

/-- Every name drawn into `valid_name` belongs to a cluster of size at least
3 listed among the groups. -/
theorem drawValid_mem {σ : Type} (rng : RandomBits σ) (hch : ChoiceSpec rng)
    (groups : List (Nat × List String)) :
    ∀ st x, x ∈ (drawValid rng st groups).1 →
      ∃ g ∈ groups, 3 ≤ g.2.length ∧ x ∈ g.2 := by
  induction groups with
  | nil =>
    intro st x hx
    rw [drawValid] at hx
    simp at hx
  | cons g0 rest ih =>
    intro st x hx
    obtain ⟨l0, nl0⟩ := g0
    rw [drawValid] at hx
    by_cases hlen : nl0.length < 3
    · rw [if_pos hlen] at hx
      obtain ⟨g, hg, h3, hxg⟩ := ih st x hx
      exact ⟨g, List.mem_cons_of_mem _ hg, h3, hxg⟩
    · rw [if_neg hlen] at hx
      have h3 : 3 ≤ nl0.length := by omega
      have hb := drawCount_bounds nl0.length h3
      have hcs := hch st (max 1 (nl0.length / 10)) nl0 hb.1 hb.2.1
      simp only [List.mem_append] at hx
      rcases hx with hx | hx
      · exact ⟨(l0, nl0), List.mem_cons_self _ _, h3, hcs.2 x hx⟩
      · obtain ⟨g, hg, hg3, hxg⟩ := ih _ x hx
        exact ⟨g, List.mem_cons_of_mem _ hg, hg3, hxg⟩

/-- For a listed cluster `(l, nl)` of size at least 3, the names of `nl`
that end up in `valid_name` all come from a single `rand.choice` draw of
exactly `max 1 (nl.length / 10)` names from `nl`. -/
theorem drawValid_picked {σ : Type} (rng : RandomBits σ) (hch : ChoiceSpec rng)
    (groups : List (Nat × List String))
    (hdisj : groups.Pairwise (fun g1 g2 => ∀ x ∈ g1.2, x ∉ g2.2))
    (l : Nat) (nl : List String) (hg : (l, nl) ∈ groups) (h3 : 3 ≤ nl.length) :
    ∀ st, ∃ picked : List String,
      picked.length = max 1 (nl.length / 10) ∧
      (∀ y ∈ picked, y ∈ nl) ∧
      (∀ x ∈ (drawValid rng st groups).1, x ∈ nl → x ∈ picked) := by
  induction groups with
  | nil => cases hg
  | cons g0 rest ih =>
    intro st
    obtain ⟨l0, nl0⟩ := g0
    rcases List.mem_cons.mp hg with heq | htail
    · -- the head is our cluster
      have hnl : nl0 = nl := (congrArg Prod.snd heq).symm
      subst hnl
      rw [drawValid, if_neg (by omega)]
      have hb := drawCount_bounds nl0.length h3
      have hcs := hch st (max 1 (nl0.length / 10)) nl0 hb.1 hb.2.1
      refine ⟨(rng.choice st (max 1 (nl0.length / 10)) nl0).1, hcs.1, hcs.2, ?_⟩
      intro x hx hxnl
      simp only [List.mem_append] at hx
      rcases hx with hx | hx
      · exact hx
      · obtain ⟨g, hgmem, _, hxg⟩ := drawValid_mem rng hch rest _ x hx
        have := (List.pairwise_cons.mp hdisj).1 g hgmem x hxnl
        exact absurd hxg this
    · -- our cluster is in the tail
      have ihr := ih (List.pairwise_cons.mp hdisj).2 htail
      rw [drawValid]
      by_cases hlen : nl0.length < 3
      · rw [if_pos hlen]
        exact ihr st
      · rw [if_neg hlen]
        have hb := drawCount_bounds nl0.length (by omega)
        have hcs := hch st (max 1 (nl0.length / 10)) nl0 hb.1 hb.2.1
        obtain ⟨picked, hlen2, hsub, hcover⟩ :=
          ihr (rng.choice st (max 1 (nl0.length / 10)) nl0).2
        refine ⟨picked, hlen2, hsub, ?_⟩
        intro x hx hxnl
        simp only [List.mem_append] at hx
        rcases hx with hx | hx
        · have hx0 : x ∈ nl0 := hcs.2 x hx
          have := (List.pairwise_cons.mp hdisj).1 (l, nl) htail x hx0
          exact absurd hxnl this
        · exact hcover x hx hxnl

/-- With a lawful shuffle, the doubly-shuffled `all_name` is a permutation of
the index keys. -/
theorem allNameOf_perm {σ : Type} (rng : RandomBits σ) (hsh : ShuffleSpec rng)
    (st0 : σ) (indices : List (String × Nat × Nat)) :
    ((allNameOf rng st0 indices).1).Perm (indices.map Prod.fst) := by
  simp only [allNameOf]
  exact (hsh _ _).trans ((hsh _ _).trans (perm_sortBy _ _))

/-- The speaker of every listed name appears in the speaker vocabulary. -/
theorem spk_mem_speakersOf (spk : String → String) (all_name : List String)
    (n : String) (hn : n ∈ all_name) : spk n ∈ speakersOf spk all_name := by
  rw [speakersOf]
  exact (perm_sortBy _ _).mem_iff.mpr (List.mem_dedup.mpr (List.mem_map_of_mem spk hn))

/-- Dense labels of listed names agree exactly when their speakers do. -/
theorem labelOf_eq_iff (spk : String → String) (all_name : List String)
    (t v : String) (ht : t ∈ all_name) (hv : v ∈ all_name) :
    labelOf spk all_name t = labelOf spk all_name v ↔ spk t = spk v := by
  rw [labelOf, labelOf]
  exact List.indexOf_inj (spk_mem_speakersOf spk all_name t ht)
    (spk_mem_speakersOf spk all_name v hv)

/-- Every group is the cluster of the names carrying one dense label. -/
theorem groupsOf_shape (spk : String → String) (all_name : List String)
    (g : Nat × List String) (hg : g ∈ groupsOf spk all_name) :
    ∃ l, g = (l, all_name.filter (fun n => decide (labelOf spk all_name n = l))) := by
  rw [groupsOf] at hg
  obtain ⟨l, _, hgl⟩ := List.mem_map.mp hg
  exact ⟨l, hgl.symm⟩

/-- Distinct groups hold disjoint name clusters. -/
theorem groupsOf_pairwise_disjoint (spk : String → String) (all_name : List String) :
    (groupsOf spk all_name).Pairwise (fun g1 g2 => ∀ x ∈ g1.2, x ∉ g2.2) := by
  rw [groupsOf]
  rw [List.pairwise_map]
  have hnd := dedupKeepFirst_nodup (all_name.map (labelOf spk all_name))
  refine List.Pairwise.imp_of_mem ?_ hnd
  intro l1 l2 _ _ hne x hx1 hx2
  have e1 : labelOf spk all_name x = l1 := by
    simpa using (List.mem_filter.mp hx1).2
  have e2 : labelOf spk all_name x = l2 := by
    simpa using (List.mem_filter.mp hx2).2
  exact hne (e1 ▸ e2)

/-- Pigeonhole on lists: a duplicate-free list longer than `pk` has a member
outside `pk`. -/
theorem exists_not_mem_of_length_lt (l pk : List String)
    (hnd : l.Nodup) (hlt : pk.length < l.length) : ∃ t ∈ l, t ∉ pk := by
  by_contra hcon
  push_neg at hcon
  have h1 : l.toFinset ⊆ pk.toFinset := by
    intro x hx
    exact List.mem_toFinset.mpr (hcon x (List.mem_toFinset.mp hx))
  have h2 : l.toFinset.card ≤ pk.toFinset.card := Finset.card_le_card h1
  rw [List.toFinset_card_of_nodup hnd] at h2
  have h3 := pk.toFinset_card_le
  omega

/-- Invariants of the splitting stage on an arbitrary duplicate-free kept
index: the train and valid name sets are disjoint, they cover exactly the
kept names, and every speaker drawn into valid keeps a name in train. -/
theorem prepare_split_inv {σ : Type} (rng : RandomBits σ) (st0 : σ)
    (spk : String → String) (indices : List (String × Nat × Nat))
    (hnd : (indices.map Prod.fst).Nodup)
    (hsh : ShuffleSpec rng) (hch : ChoiceSpec rng) :
    (∀ n ∈ (prepare_split rng st0 spk indices).1,
       n ∉ (prepare_split rng st0 spk indices).2.1) ∧
    (∀ n, (n ∈ (prepare_split rng st0 spk indices).1 ∨
           n ∈ (prepare_split rng st0 spk indices).2.1) ↔
          n ∈ indices.map Prod.fst) ∧
    (∀ v ∈ (prepare_split rng st0 spk indices).2.1,
       ∃ t ∈ (prepare_split rng st0 spk indices).1, spk t = spk v) := by
  have hperm := allNameOf_perm rng hsh st0 indices
  have handd : ((allNameOf rng st0 indices).1).Nodup := hperm.nodup_iff.mpr hnd
  simp only [prepare_split]
  set an := allNameOf rng st0 indices with han
  set groups := groupsOf spk an.1 with hgroups
  set dv := drawValid rng an.2 groups with hdv
  refine ⟨?_, ?_, ?_⟩
  · -- disjointness
    intro n hn
    simpa using (List.mem_filter.mp hn).2
  · -- coverage
    intro n
    constructor
    · rintro (hn | hn)
      · exact hperm.mem_iff.mp (List.mem_of_mem_filter hn)
      · obtain ⟨g, hg, _, hxg⟩ := drawValid_mem rng hch groups an.2 n hn
        obtain ⟨l, hgl⟩ := groupsOf_shape spk an.1 g hg
        rw [hgl] at hxg
        exact hperm.mem_iff.mp (List.mem_of_mem_filter hxg)
    · intro hn
      have hna : n ∈ an.1 := hperm.mem_iff.mpr hn
      by_cases hv : n ∈ dv.1
      · exact Or.inr hv
      · refine Or.inl (List.mem_filter.mpr ⟨hna, ?_⟩)
        simpa using hv
  · -- every valid speaker keeps a train name
    intro v hv
    obtain ⟨g, hg, h3, hvg⟩ := drawValid_mem rng hch groups an.2 v hv
    obtain ⟨l, hgl⟩ := groupsOf_shape spk an.1 g hg
    rw [hgl] at hg hvg h3
    obtain ⟨picked, hplen, hpsub, hpcover⟩ :=
      drawValid_picked rng hch groups (groupsOf_pairwise_disjoint spk an.1)
        l _ hg h3 an.2
    have hnlnd : (an.1.filter (fun n => decide (labelOf spk an.1 n = l))).Nodup :=
      handd.filter _
    have hlt : picked.length <
        (an.1.filter (fun n => decide (labelOf spk an.1 n = l))).length := by
      rw [hplen]
      exact (drawCount_bounds _ h3).2.2
    obtain ⟨t, htnl, htp⟩ := exists_not_mem_of_length_lt _ picked hnlnd hlt
    have htv : t ∉ dv.1 := fun hc => htp (hpcover t hc htnl)
    have hta : t ∈ an.1 := List.mem_of_mem_filter htnl
    refine ⟨t, List.mem_filter.mpr ⟨hta, by simpa using htv⟩, ?_⟩
    have hlt2 : labelOf spk an.1 t = l := by
      simpa using (List.mem_filter.mp htnl).2
    have hlv2 : labelOf spk an.1 v = l := by
      simpa using (List.mem_filter.mp hvg).2
    exact (labelOf_eq_iff spk an.1 t v hta (List.mem_of_mem_filter hvg)).mp
      (hlt2.trans hlv2.symm)

/-- The kept index (quality filter then per-speaker minimum) has
duplicate-free keys whenever the input index does. -/
theorem kept_keys_nodup (spk : String → String) (X : List (List ℚ))
    (idx : List (String × Nat × Nat)) (hnd : (idx.map Prod.fst).Nodup) :
    ((keepMinUtt spk (filter_utterances X idx)).map Prod.fst).Nodup := by
  have hsub : List.Sublist (keepMinUtt spk (filter_utterances X idx)) idx := by
    rw [keepMinUtt, filter_utterances]
    exact (List.filter_sublist _).trans (List.filter_sublist _)
  exact List.Nodup.sublist (hsub.map Prod.fst) hnd

/-- C5: for every run of the splitting stage on the kept (quality-filtered,
minimum-per-speaker surviving) utterance index, the returned train and valid
name sets are disjoint, their union is exactly the kept utterance names, and
every speaker appearing in valid also keeps at least one utterance in
train. -/
theorem split_train_valid_invariants {σ : Type} (rng : RandomBits σ) (st0 : σ)
    (spk : String → String) (X : List (List ℚ)) (idx : List (String × Nat × Nat))
    (kept : List (String × Nat × Nat))
    (hkept : kept = keepMinUtt spk (filter_utterances X idx))
    (hnd : (idx.map Prod.fst).Nodup)
    (hsh : ShuffleSpec rng) (hch : ChoiceSpec rng) :
    (∀ n ∈ (prepare_split rng st0 spk kept).1,
       n ∉ (prepare_split rng st0 spk kept).2.1) ∧
    (∀ n, (n ∈ (prepare_split rng st0 spk kept).1 ∨
           n ∈ (prepare_split rng st0 spk kept).2.1) ↔
          n ∈ kept.map Prod.fst) ∧
    (∀ v ∈ (prepare_split rng st0 spk kept).2.1,
       ∃ t ∈ (prepare_split rng st0 spk kept).1, spk t = spk v) := by
  have hknd : (kept.map Prod.fst).Nodup := by
    rw [hkept]
    exact kept_keys_nodup spk X idx hnd
  exact prepare_split_inv rng st0 spk kept hknd hsh hch

/-- Witness for `split_train_valid_invariants`: eight one-speaker utterances
over `Xw`, all surviving, split by the concrete generator `rngTake`. -/
theorem split_train_valid_invariants_witness :
    (∀ n ∈ (prepare_split rngTake 52181208 (fun _ => "A") idxW).1,
       n ∉ (prepare_split rngTake 52181208 (fun _ => "A") idxW).2.1) ∧
    (∀ n, (n ∈ (prepare_split rngTake 52181208 (fun _ => "A") idxW).1 ∨
           n ∈ (prepare_split rngTake 52181208 (fun _ => "A") idxW).2.1) ↔
          n ∈ idxW.map Prod.fst) ∧
    (∀ v ∈ (prepare_split rngTake 52181208 (fun _ => "A") idxW).2.1,
       ∃ t ∈ (prepare_split rngTake 52181208 (fun _ => "A") idxW).1,
         (fun _ => "A" : String → String) t = (fun _ => "A" : String → String) v) :=
  split_train_valid_invariants rngTake 52181208 (fun _ => "A") Xw idxW idxW
    (by decide) (by decide) rngTake_shuffleSpec rngTake_choiceSpec

/-! ## C2: the per-speaker validation draw -/

/-- C2 (amended): for every name `v` drawn into validation, its speaker has
at least 3 surviving utterances (speakers below 3 contribute nothing), and
all validation names of that speaker come from one `rand.choice` draw of
exactly `max(1, int(0.1 * count)) = max 1 (count / 10)` names (sampled with
replacement) from the speaker's surviving utterances — `int` truncation, not
rounding. -/
theorem stratified_draw_per_speaker {σ : Type} (rng : RandomBits σ) (st0 : σ)
    (spk : String → String) (X : List (List ℚ)) (idx : List (String × Nat × Nat))
    (kept : List (String × Nat × Nat))
    (hkept : kept = keepMinUtt spk (filter_utterances X idx))
    (hnd : (idx.map Prod.fst).Nodup)
    (hsh : ShuffleSpec rng) (hch : ChoiceSpec rng) :
    ∀ v ∈ (prepare_split rng st0 spk kept).2.1,
      3 ≤ ((kept.map Prod.fst).filter (fun n => decide (spk n = spk v))).length ∧
      ∃ picked : List String,
        picked.length =
          max 1 (((kept.map Prod.fst).filter
                    (fun n => decide (spk n = spk v))).length / 10) ∧
        (∀ y ∈ picked, y ∈ kept.map Prod.fst ∧ spk y = spk v) ∧
        (∀ x ∈ (prepare_split rng st0 spk kept).2.1, spk x = spk v → x ∈ picked) := by
  have hknd : (kept.map Prod.fst).Nodup := by
    rw [hkept]
    exact kept_keys_nodup spk X idx hnd
  have hperm := allNameOf_perm rng hsh st0 kept
  simp only [prepare_split] at *
  set an := allNameOf rng st0 kept with han
  set groups := groupsOf spk an.1 with hgroups
  set dv := drawValid rng an.2 groups with hdv
  intro v hv
  obtain ⟨g, hg, h3, hvg⟩ := drawValid_mem rng hch groups an.2 v hv
  obtain ⟨l, hgl⟩ := groupsOf_shape spk an.1 g hg
  rw [hgl] at hg hvg h3
  have hva : v ∈ an.1 := List.mem_of_mem_filter hvg
  have hlv : labelOf spk an.1 v = l := by
    simpa using (List.mem_filter.mp hvg).2
  -- the label cluster is the speaker cluster
  have hfeq : an.1.filter (fun n => decide (labelOf spk an.1 n = l)) =
      an.1.filter (fun n => decide (spk n = spk v)) := by
    apply List.filter_congr
    intro n hn
    have := labelOf_eq_iff spk an.1 n v hn hva
    rw [← hlv]
    simpa using this
  have hcnt : (an.1.filter (fun n => decide (spk n = spk v))).length =
      ((kept.map Prod.fst).filter (fun n => decide (spk n = spk v))).length :=
    (hperm.filter _).length_eq
  have h3' : 3 ≤ ((kept.map Prod.fst).filter
      (fun n => decide (spk n = spk v))).length := by
    rw [← hcnt, ← hfeq]
    exact h3
  refine ⟨h3', ?_⟩
  obtain ⟨picked, hplen, hpsub, hpcover⟩ :=
    drawValid_picked rng hch groups (groupsOf_pairwise_disjoint spk an.1)
      l _ hg h3 an.2
  refine ⟨picked, ?_, ?_, ?_⟩
  · rw [hplen, hfeq, hcnt]
  · intro y hy
    have hynl := hpsub y hy
    have hya : y ∈ an.1 := List.mem_of_mem_filter hynl
    have hly : labelOf spk an.1 y = l := by
      simpa using (List.mem_filter.mp hynl).2
    refine ⟨hperm.mem_iff.mp hya, ?_⟩
    exact (labelOf_eq_iff spk an.1 y v hya hva).mp (hly.trans hlv.symm)
  · intro x hx hxv
    obtain ⟨g2, hg2, _, hxg2⟩ := drawValid_mem rng hch groups an.2 x hx
    obtain ⟨l2, hgl2⟩ := groupsOf_shape spk an.1 g2 hg2
    rw [hgl2] at hxg2
    have hxa : x ∈ an.1 := List.mem_of_mem_filter hxg2
    have hlx : labelOf spk an.1 x = l := by
      rw [← hlv]
      exact (labelOf_eq_iff spk an.1 x v hxa hva).mpr hxv
    refine hpcover x hx ?_
    exact List.mem_filter.mpr ⟨hxa, by simpa using hlx⟩

/-- Witness for `stratified_draw_per_speaker` at the concrete one-speaker
index `idxW` over `Xw` with the generator `rngTake`, instantiated at the
drawn validation name `u0`. -/
theorem stratified_draw_per_speaker_witness :
    3 ≤ ((idxW.map Prod.fst).filter
          (fun n => decide ((fun _ => "A" : String → String) n =
                            (fun _ => "A" : String → String) "u0"))).length ∧
    ∃ picked : List String,
      picked.length =
        max 1 (((idxW.map Prod.fst).filter
                  (fun n => decide ((fun _ => "A" : String → String) n =
                                    (fun _ => "A" : String → String) "u0"))).length / 10) ∧
      (∀ y ∈ picked, y ∈ idxW.map Prod.fst ∧
         (fun _ => "A" : String → String) y = (fun _ => "A" : String → String) "u0") ∧
      (∀ x ∈ (prepare_split rngTake 52181208 (fun _ => "A") idxW).2.1,
         (fun _ => "A" : String → String) x = (fun _ => "A" : String → String) "u0" →
           x ∈ picked) :=
  stratified_draw_per_speaker rngTake 52181208 (fun _ => "A") Xw idxW idxW
    (by decide) (by decide) rngTake_shuffleSpec rngTake_choiceSpec "u0" (by decide)

/-- Counterexample to C2 as stated: a speaker with 16 surviving utterances.
The claim's draw size is `max(1, round(0.1 * 16)) = 2`, but the code draws
`max(1, int(0.1 * 16)) = 1` name: the validation set of this run holds one
utterance, not two. -/
theorem stratified_draw_round_counterexample :
    ((prepare_dnn_split rngTake Config.SUPER_SEED (fun _ => "A") idxC2).2.1).length = 1 ∧
    validDrawCountSpec 16 = 2 := by
  constructor
  · rfl
  · decide

/-- Witness for `split_deterministic` with the concrete generator `rngTake`,
the source's seed, and a two-utterance index. -/
theorem split_deterministic_witness :
    prepare_dnn_split rngTake Config.SUPER_SEED (fun _ => "A")
        [("u1", 0, 101), ("u2", 101, 202)] =
      prepare_dnn_split rngTake Config.SUPER_SEED (fun _ => "A")
        [("u1", 0, 101), ("u2", 101, 202)] :=
  split_deterministic rngTake Config.SUPER_SEED (fun _ => "A") (fun _ => "A")
    [("u1", 0, 101), ("u2", 101, 202)] [("u1", 0, 101), ("u2", 101, 202)] rfl rfl

end SreHelpers
